import Mathlib

/-!
Verification of the path-to-schema merge engine in
`src/crates/source_analyzer/src/structs.rs`.

The development shallowly embeds the Rust code: the slice of `syn::Type`
that the code inspects, the `InsertionRule` instruction set, the
`StructHierarchy` tree with its `insert` merge operation (mutation is made
explicit: `insert` returns the post-call tree together with an optional
error, mirroring `&mut self` plus `anyhow::Result<()>`), the instruction
compiler `path_to_insertion_rules`, the `Option`-unwrapping helper
`unwrap_option_data_type`, and the registry loops of
`Structs::try_from_crates_directory` restricted to a single declaration.
`BTreeMap<String, _>` is embedded as an association list kept sorted by
byte-lexicographic key order.
-/

/-- The slice of `syn::GenericArgument` the code distinguishes: a type
argument versus any other kind of generic argument. -/
inductive SynGenericArgument (τ : Type) where
  | typeArg (t : τ)
  | otherArg (tokens : String)

/-- The slice of `syn::PathArguments`: no arguments, angle-bracketed
arguments, or anything else (e.g. parenthesized). -/
inductive SynPathArguments (τ : Type) where
  | noArgs
  | angleBracketed (args : List (SynGenericArgument τ))
  | otherArgs (tokens : String)

/-- One `syn::PathSegment`: an identifier plus its generic arguments. -/
structure SynPathSegment (τ : Type) where
  ident : String
  arguments : SynPathArguments τ

/-- The slice of `syn::Type` used by the code: `Type::Path` (with the
presence flags of `qself` and the leading `::`, both ignored by
`unwrap_option_data_type`'s pattern) and an opaque catch-all for every
other `syn::Type` variant (e.g. `Type::Verbatim`). -/
inductive DataType where
  | typePath (qselfPresent leadingColon : Bool) (segments : List (SynPathSegment DataType))
  | verbatim (tokens : String)

mutual

def DataType.decEq (a b : DataType) : Decidable (a = b) :=
  match a, b with
  | .typePath q1 l1 s1, .typePath q2 l2 s2 =>
    match Bool.decEq q1 q2, Bool.decEq l1 l2, DataType.segListDecEq s1 s2 with
    | .isTrue hq, .isTrue hl, .isTrue hs => .isTrue (by rw [hq, hl, hs])
    | .isFalse hq, _, _ => .isFalse (by intro he; injection he with h1 h2 h3; exact hq h1)
    | _, .isFalse hl, _ => .isFalse (by intro he; injection he with h1 h2 h3; exact hl h2)
    | _, _, .isFalse hs => .isFalse (by intro he; injection he with h1 h2 h3; exact hs h3)
  | .typePath q1 l1 s1, .verbatim t2 => .isFalse (by intro he; exact DataType.noConfusion he)
  | .verbatim t1, .typePath q2 l2 s2 => .isFalse (by intro he; exact DataType.noConfusion he)
  | .verbatim t1, .verbatim t2 =>
    match String.decEq t1 t2 with
    | .isTrue ht => .isTrue (by rw [ht])
    | .isFalse ht => .isFalse (by intro he; injection he with h1; exact ht h1)
termination_by structural a

def DataType.segListDecEq (a b : List (SynPathSegment DataType)) :
    Decidable (a = b) :=
  match a, b with
  | [], [] => .isTrue rfl
  | [], _ :: _ => .isFalse (by intro he; exact List.noConfusion he)
  | _ :: _, [] => .isFalse (by intro he; exact List.noConfusion he)
  | s :: ss, t :: ts =>
    match DataType.segDecEq s t, DataType.segListDecEq ss ts with
    | .isTrue h1, .isTrue h2 => .isTrue (by rw [h1, h2])
    | .isFalse h1, _ => .isFalse (by intro he; injection he with ha hb; exact h1 ha)
    | _, .isFalse h2 => .isFalse (by intro he; injection he with ha hb; exact h2 hb)
termination_by structural a

def DataType.segDecEq (a b : SynPathSegment DataType) : Decidable (a = b) :=
  match a, b with
  | ⟨i1, a1⟩, ⟨i2, a2⟩ =>
    match String.decEq i1 i2, DataType.argsDecEq a1 a2 with
    | .isTrue h1, .isTrue h2 => .isTrue (by rw [h1, h2])
    | .isFalse h1, _ => .isFalse (by intro he; injection he with ha hb; exact h1 ha)
    | _, .isFalse h2 => .isFalse (by intro he; injection he with ha hb; exact h2 hb)
termination_by structural a

def DataType.argsDecEq (a b : SynPathArguments DataType) : Decidable (a = b) :=
  match a, b with
  | .noArgs, .noArgs => .isTrue rfl
  | .noArgs, .angleBracketed _ => .isFalse (by intro he; exact SynPathArguments.noConfusion he)
  | .noArgs, .otherArgs _ => .isFalse (by intro he; exact SynPathArguments.noConfusion he)
  | .angleBracketed _, .noArgs => .isFalse (by intro he; exact SynPathArguments.noConfusion he)
  | .angleBracketed g1, .angleBracketed g2 =>
    match DataType.gaListDecEq g1 g2 with
    | .isTrue h1 => .isTrue (by rw [h1])
    | .isFalse h1 => .isFalse (by intro he; injection he with ha; exact h1 ha)
  | .angleBracketed _, .otherArgs _ =>
    .isFalse (by intro he; exact SynPathArguments.noConfusion he)
  | .otherArgs _, .noArgs => .isFalse (by intro he; exact SynPathArguments.noConfusion he)
  | .otherArgs _, .angleBracketed _ =>
    .isFalse (by intro he; exact SynPathArguments.noConfusion he)
  | .otherArgs t1, .otherArgs t2 =>
    match String.decEq t1 t2 with
    | .isTrue h1 => .isTrue (by rw [h1])
    | .isFalse h1 => .isFalse (by intro he; injection he with ha; exact h1 ha)
termination_by structural a

def DataType.gaListDecEq (a b : List (SynGenericArgument DataType)) :
    Decidable (a = b) :=
  match a, b with
  | [], [] => .isTrue rfl
  | [], _ :: _ => .isFalse (by intro he; exact List.noConfusion he)
  | _ :: _, [] => .isFalse (by intro he; exact List.noConfusion he)
  | g :: gs, h :: hs =>
    match DataType.gaDecEq g h, DataType.gaListDecEq gs hs with
    | .isTrue h1, .isTrue h2 => .isTrue (by rw [h1, h2])
    | .isFalse h1, _ => .isFalse (by intro he; injection he with ha hb; exact h1 ha)
    | _, .isFalse h2 => .isFalse (by intro he; injection he with ha hb; exact h2 hb)
termination_by structural a

def DataType.gaDecEq (a b : SynGenericArgument DataType) : Decidable (a = b) :=
  match a, b with
  | .typeArg t1, .typeArg t2 =>
    match DataType.decEq t1 t2 with
    | .isTrue h1 => .isTrue (by rw [h1])
    | .isFalse h1 => .isFalse (by intro he; injection he with ha; exact h1 ha)
  | .typeArg _, .otherArg _ => .isFalse (by intro he; exact SynGenericArgument.noConfusion he)
  | .otherArg _, .typeArg _ => .isFalse (by intro he; exact SynGenericArgument.noConfusion he)
  | .otherArg t1, .otherArg t2 =>
    match String.decEq t1 t2 with
    | .isTrue h1 => .isTrue (by rw [h1])
    | .isFalse h1 => .isFalse (by intro he; injection he with ha; exact h1 ha)
termination_by structural a

end

instance : DecidableEq DataType := DataType.decEq

/-- The `crate::PathSegment` as it reaches `path_to_insertion_rules`: a name,
an optional marker, and a variable marker (asserted `false` by the code
before compilation; the assertion is a panic, not a recoverable error). -/
structure PathSegment where
  name : String
  is_optional : Bool
  is_variable : Bool
  deriving DecidableEq

/-- The `InsertionRule` instruction set from `structs.rs`. -/
inductive InsertionRule where
  | insertField (name : String)
  | beginOptional
  | beginStruct
  | appendDataType (data_type : DataType)
  deriving DecidableEq

/-- The distinct `bail!` sites of `StructHierarchy::insert`, one
constructor per message. -/
inductive InsertError where
  | beginOptionalNonEmptyStruct
  | insertFieldToOptional (name : String)
  | beginStructOnOptional
  | appendDataTypeNonEmptyStruct
  | appendDataTypeOnOptional
  | unmatchingDataTypes (previous appended : DataType)
  deriving DecidableEq

/-- The error string of each `bail!` site (interpolated fragments kept
abstractly). -/
def InsertError.message : InsertError → String
  | .beginOptionalNonEmptyStruct => "Failed to begin optional in-place of non-empty struct"
  | .insertFieldToOptional name =>
    "Failed to insert field with name `" ++ name ++ "` to optional"
  | .beginStructOnOptional => "Failed to begin struct in-place of optional"
  | .appendDataTypeNonEmptyStruct => "Failed to append data type in-place of non-empty struct"
  | .appendDataTypeOnOptional => "Failed to append data type in-place of optional"
  | .unmatchingDataTypes _ _ =>
    "Unmatching data types: previous data type does not match data type to be appended"

/-- Shape conflicts per the specification's error taxonomy: every
`insert` error except the leaf type conflict. -/
def InsertError.isShapeConflict : InsertError → Bool
  | .unmatchingDataTypes _ _ => false
  | _ => true

/-- Byte-lexicographic order on character lists: the order `Ord for
String` gives `BTreeMap<String, _>` keys in Rust (UTF-8 byte order, which
coincides with code-point order). -/
def charListLt (a b : List Char) : Bool :=
  match a, b with
  | _, [] => false
  | [], _ :: _ => true
  | c :: cs, d :: ds => if c = d then charListLt cs ds else decide (c.toNat < d.toNat)

/-- Key order of the embedded `BTreeMap<String, _>`. -/
def strLt (a b : String) : Bool := charListLt a.data b.data

/-- The `StructHierarchy` tree from `structs.rs`; `fields` embeds the
`BTreeMap<String, StructHierarchy>` as a key-sorted association list. -/
inductive StructHierarchy where
  | struct (fields : List (String × StructHierarchy))
  | optional (child : StructHierarchy)
  | field (data_type : DataType)

/-- Rust's `StructHierarchy::default()`: an empty struct. -/
def StructHierarchy.defaultHierarchy : StructHierarchy := .struct []

/-- Rust's `BTreeMap::get` on the association-list embedding. -/
def lookupField (fields : List (String × StructHierarchy)) (name : String) :
    Option StructHierarchy :=
  match fields with
  | [] => none
  | (k, w) :: rest => if name = k then some w else lookupField rest name

/-- Rust's `BTreeMap::insert` on the association-list embedding: place (or
replace) a binding, keeping keys sorted by `strLt`. -/
def btreeInsert (fields : List (String × StructHierarchy)) (name : String)
    (value : StructHierarchy) : List (String × StructHierarchy) :=
  match fields with
  | [] => [(name, value)]
  | (k, w) :: rest =>
    if strLt name k then (name, value) :: (k, w) :: rest
    else if name = k then (name, value) :: rest
    else (k, w) :: btreeInsert rest name value

/-- The merge operation `StructHierarchy::insert` (structs.rs lines 221-283). The Rust method
mutates `self` and returns `anyhow::Result<()>`; the embedding returns the
post-call tree together with the optional error. In the
`Struct`/`InsertField` case `fields.entry(name).or_default()` materialises
the entry before the recursive call, so the returned map holds the child's
post-call state even when the recursion failed. In the
`Struct`/`BeginOptional` case the `?` on the child insertion returns
before `*self` is reassigned, so `self` is unchanged on that error. -/
def StructHierarchy.insert :
    StructHierarchy → List InsertionRule → StructHierarchy × Option InsertError
  | s, [] => (s, none)
  | .struct fields, .insertField name :: rest =>
    let child := (lookupField fields name).getD StructHierarchy.defaultHierarchy
    let result := StructHierarchy.insert child rest
    (.struct (btreeInsert fields name result.1), result.2)
  | .struct fields, .beginOptional :: rest =>
    if fields.isEmpty then
      match StructHierarchy.insert StructHierarchy.defaultHierarchy rest with
      | (child, none) => (.optional child, none)
      | (_, some e) => (.struct fields, some e)
    else (.struct fields, some .beginOptionalNonEmptyStruct)
  | .struct fields, .beginStruct :: rest => StructHierarchy.insert (.struct fields) rest
  | .struct fields, .appendDataType t :: _ =>
    if fields.isEmpty then (.field t, none)
    else (.struct fields, some .appendDataTypeNonEmptyStruct)
  | .optional child, .insertField name :: _ =>
    (.optional child, some (.insertFieldToOptional name))
  | .optional child, .beginOptional :: rest =>
    let result := StructHierarchy.insert child rest
    (.optional result.1, result.2)
  | .optional child, .beginStruct :: _ => (.optional child, some .beginStructOnOptional)
  | .optional child, .appendDataType _ :: _ =>
    (.optional child, some .appendDataTypeOnOptional)
  | .field t, .insertField _ :: _ => (.field t, none)
  | .field t, .beginOptional :: _ => (.field t, none)
  | .field t, .beginStruct :: _ => (.field t, none)
  | .field t, .appendDataType u :: _ =>
    if t = u then (.field t, none) else (.field t, some (.unmatchingDataTypes t u))

/-- The instruction compiler `path_to_insertion_rules` (structs.rs lines 294-319): per segment
`BeginStruct`, `InsertField(name)`, and `BeginOptional` when the segment
is optional; one trailing `AppendDataType`. -/
def path_to_insertion_rules (path : List PathSegment) (data_type : DataType) :
    List InsertionRule :=
  (path.map fun segment =>
    match segment.is_optional with
    | true => [.beginStruct, .insertField segment.name, .beginOptional]
    | false => [.beginStruct, .insertField segment.name]).flatten
  ++ [.appendDataType data_type]

/-- The `Option<T>` wrapper built for additional outputs (structs.rs
lines 82-100): `Type::Path` with no qself, no leading colon, and the
single segment `Option<data_type>`. -/
def data_type_wrapped_in_option (data_type : DataType) : DataType :=
  .typePath false false [⟨"Option", .angleBracketed [.typeArg data_type]⟩]

/-- The helper `unwrap_option_data_type` (structs.rs lines 322-344). -/
def unwrap_option_data_type (data_type : DataType) : Except String DataType :=
  match data_type with
  | .typePath _ _ [⟨ident, arguments⟩] =>
    if ident = "Option" then
      match arguments with
      | .angleBracketed [arg] =>
        match arg with
        | .typeArg nested_data_type => .ok nested_data_type
        | _ => .error "Unexpected generic argument, expected type argument in data type"
      | _ => .error "Expected exactly one generic type argument in data type"
    else .error "Execpted Option<T> as data type"
  | _ => .error "Execpted Option<T> as data type"

/-- The main-outputs branch of `Structs::try_from_crates_directory`
(structs.rs lines 40-58) for one `MainOutput { data_type, name }`: a
direct `BTreeMap::insert` of a leaf under `name`, erroring only when the
category root is not a struct. -/
def mainOutputsInsert (hierarchy : StructHierarchy) (name : String)
    (data_type : DataType) : Except String StructHierarchy :=
  match hierarchy with
  | .struct fields => .ok (.struct (btreeInsert fields name (.field data_type)))
  | _ => .error "Unexpected non-struct hierarchy in main outputs"

/-- The parameter branch of `Structs::try_from_crates_directory`
(structs.rs lines 128-145) for one expanded path: unwrap the leaf type
when the path contains an optional segment, then compile and merge into
the configuration tree. -/
def parameterInsert (configuration : StructHierarchy) (path : List PathSegment)
    (data_type : DataType) : Except String StructHierarchy :=
  let path_contains_optional := path.any fun segment => segment.is_optional
  match (match path_contains_optional with
         | true => unwrap_option_data_type data_type
         | false => .ok data_type) with
  | .error e => .error e
  | .ok dt =>
    match StructHierarchy.insert configuration (path_to_insertion_rules path dt) with
    | (configuration', none) => .ok configuration'
    | (_, some e) => .error e.message

/-- The additional-outputs branch of `Structs::try_from_crates_directory`
(structs.rs lines 82-110) for one expanded path: wrap the declared type in
`Option` and merge the compiled rules. -/
def additionalOutputInsert (additional_outputs : StructHierarchy)
    (path : List PathSegment) (data_type : DataType) :
    StructHierarchy × Option InsertError :=
  StructHierarchy.insert additional_outputs
    (path_to_insertion_rules path (data_type_wrapped_in_option data_type))

/-- Fuel-indexed variant of `StructHierarchy.insert` with the same
dispatch, spending one unit of fuel per consumed instruction; `none`
means the fuel ran out. Used to state that the recursion depth of the
merge is bounded by the instruction count. -/
def insertFuel : Nat → StructHierarchy → List InsertionRule →
    Option (StructHierarchy × Option InsertError)
  | 0, _, _ => none
  | _ + 1, s, [] => some (s, none)
  | fuel + 1, .struct fields, .insertField name :: rest =>
    let child := (lookupField fields name).getD StructHierarchy.defaultHierarchy
    match insertFuel fuel child rest with
    | none => none
    | some result => some (.struct (btreeInsert fields name result.1), result.2)
  | fuel + 1, .struct fields, .beginOptional :: rest =>
    if fields.isEmpty then
      match insertFuel fuel StructHierarchy.defaultHierarchy rest with
      | none => none
      | some (child, none) => some (.optional child, none)
      | some (_, some e) => some (.struct fields, some e)
    else some (.struct fields, some .beginOptionalNonEmptyStruct)
  | fuel + 1, .struct fields, .beginStruct :: rest => insertFuel fuel (.struct fields) rest
  | _ + 1, .struct fields, .appendDataType t :: _ =>
    if fields.isEmpty then some (.field t, none)
    else some (.struct fields, some .appendDataTypeNonEmptyStruct)
  | _ + 1, .optional child, .insertField name :: _ =>
    some (.optional child, some (.insertFieldToOptional name))
  | fuel + 1, .optional child, .beginOptional :: rest =>
    match insertFuel fuel child rest with
    | none => none
    | some result => some (.optional result.1, result.2)
  | _ + 1, .optional child, .beginStruct :: _ =>
    some (.optional child, some .beginStructOnOptional)
  | _ + 1, .optional child, .appendDataType _ :: _ =>
    some (.optional child, some .appendDataTypeOnOptional)
  | _ + 1, .field t, .insertField _ :: _ => some (.field t, none)
  | _ + 1, .field t, .beginOptional :: _ => some (.field t, none)
  | _ + 1, .field t, .beginStruct :: _ => some (.field t, none)
  | _ + 1, .field t, .appendDataType u :: _ =>
    if t = u then some (.field t, none)
    else some (.field t, some (.unmatchingDataTypes t u))

/-- Whether `strLt a b` holds for every `b` in the list. -/
def allStrLt (a : String) : List String → Bool
  | [] => true
  | b :: rest => strLt a b && allStrLt a rest

/-- Strict ascending order of a key list under `strLt` (pairwise form). -/
def keysAscending : List String → Bool
  | [] => true
  | a :: rest => allStrLt a rest && keysAscending rest

mutual

/-- The `BTreeMap` representation invariant, recursively: every struct
node's field keys are strictly ascending. -/
def sortedHierarchy (s : StructHierarchy) : Bool :=
  match s with
  | .struct fields => keysAscending (fields.map Prod.fst) && sortedFieldsList fields
  | .optional child => sortedHierarchy child
  | .field _ => true
termination_by structural s

def sortedFieldsList (fields : List (String × StructHierarchy)) : Bool :=
  match fields with
  | [] => true
  | (_, v) :: rest => sortedHierarchy v && sortedFieldsList rest
termination_by structural fields

end

mutual

/-- Whether some leaf of the tree stores exactly the data type `d`. -/
def leafHolds (d : DataType) (s : StructHierarchy) : Bool :=
  match s with
  | .struct fields => leafHoldsFields d fields
  | .optional child => leafHolds d child
  | .field t => decide (t = d)
termination_by structural s

def leafHoldsFields (d : DataType) (fields : List (String × StructHierarchy)) : Bool :=
  match fields with
  | [] => false
  | (_, v) :: rest => leafHolds d v || leafHoldsFields d rest
termination_by structural fields

end

/-- The data types carried by the `AppendDataType` instructions of a rule
sequence. -/
def appendedTypes (rules : List InsertionRule) : List DataType :=
  rules.filterMap fun rule =>
    match rule with
    | .appendDataType t => some t
    | _ => none

/-! ### Order lemmas for the key comparison -/

theorem charListLt_irrefl (l : List Char) : charListLt l l = false := by
  induction l with
  | nil => rfl
  | cons c cs ih => simp [charListLt, ih]

theorem charListLt_trans {a b c : List Char} (hab : charListLt a b = true)
    (hbc : charListLt b c = true) : charListLt a c = true := by
  induction a generalizing b c with
  | nil =>
    cases c with
    | nil => cases b <;> simp [charListLt] at hab hbc
    | cons z zs => simp [charListLt]
  | cons x xs ih =>
    cases b with
    | nil => simp [charListLt] at hab
    | cons y ys =>
      cases c with
      | nil => simp [charListLt] at hbc
      | cons z zs =>
        simp only [charListLt] at hab hbc ⊢
        by_cases hxy : x = y
        · subst hxy
          simp only [if_pos rfl] at hab
          by_cases hyz : x = z
          · subst hyz
            simp only [if_pos rfl] at hbc ⊢
            exact ih hab hbc
          · simp only [if_neg hyz] at hbc ⊢
            exact hbc
        · simp only [if_neg hxy] at hab
          by_cases hyz : y = z
          · subst hyz
            simp only [if_neg hxy]
            exact hab
          · simp only [if_neg hyz] at hbc
            have hxz : x.toNat < z.toNat := by
              have h1 := of_decide_eq_true hab
              have h2 := of_decide_eq_true hbc
              omega
            have hne : x ≠ z := by
              intro h
              subst h
              omega
            simp only [if_neg hne]
            exact decide_eq_true hxz

theorem charListLt_total {a b : List Char} (hab : charListLt a b = false)
    (hba : charListLt b a = false) : a = b := by
  induction a generalizing b with
  | nil =>
    cases b with
    | nil => rfl
    | cons y ys => simp [charListLt] at hab
  | cons x xs ih =>
    cases b with
    | nil => simp [charListLt] at hba
    | cons y ys =>
      simp only [charListLt] at hab hba
      by_cases hxy : x = y
      · subst hxy
        simp only [if_pos rfl] at hab hba
        rw [ih hab hba]
      · simp only [if_neg hxy] at hab
        simp only [if_neg (Ne.symm hxy)] at hba
        have h1 := of_decide_eq_false hab
        have h2 := of_decide_eq_false hba
        have : x.toNat = y.toNat := by omega
        exact absurd (Char.ext (UInt32.ext this)) hxy

theorem strLt_irrefl (a : String) : strLt a a = false :=
  charListLt_irrefl a.data

theorem strLt_trans {a b c : String} (hab : strLt a b = true)
    (hbc : strLt b c = true) : strLt a c = true :=
  charListLt_trans hab hbc

theorem strLt_total {a b : String} (hab : strLt a b = false)
    (hba : strLt b a = false) : a = b :=
  String.ext (charListLt_total hab hba)

theorem strLt_asymm_of_ne {a b : String} (hab : strLt a b = false) (hne : a ≠ b) :
    strLt b a = true := by
  cases hba : strLt b a with
  | true => rfl
  | false => exact absurd (strLt_total hab hba) hne

theorem strLt_not_both {a b : String} (hab : strLt a b = true) :
    strLt b a = false := by
  cases hba : strLt b a with
  | false => rfl
  | true =>
    have := strLt_trans hab hba
    rw [strLt_irrefl] at this
    exact absurd this (by simp)

/-! ### Association-list (`BTreeMap`) lemmas -/

theorem lookupField_btreeInsert_self (fields : List (String × StructHierarchy))
    (name : String) (v : StructHierarchy) :
    lookupField (btreeInsert fields name v) name = some v := by
  induction fields with
  | nil => simp [btreeInsert, lookupField]
  | cons kw rest ih =>
    obtain ⟨k, w⟩ := kw
    simp only [btreeInsert]
    cases h1 : strLt name k with
    | true => simp [lookupField]
    | false =>
      by_cases h2 : name = k
      · simp [h2, lookupField]
      · simp [h2, lookupField, ih]

theorem btreeInsert_btreeInsert_self (fields : List (String × StructHierarchy))
    (name : String) (v w : StructHierarchy) :
    btreeInsert (btreeInsert fields name v) name w = btreeInsert fields name w := by
  induction fields with
  | nil => simp [btreeInsert, strLt_irrefl]
  | cons kx rest ih =>
    obtain ⟨k, x⟩ := kx
    simp only [btreeInsert]
    cases h1 : strLt name k with
    | true => simp [btreeInsert, strLt_irrefl, h1]
    | false =>
      by_cases h2 : name = k
      · simp [h2, btreeInsert, strLt_irrefl]
      · simp [h2, btreeInsert, h1, ih]

theorem lookupField_mem_keys {fields : List (String × StructHierarchy)}
    {name : String} {v : StructHierarchy}
    (h : lookupField fields name = some v) : name ∈ fields.map Prod.fst := by
  induction fields with
  | nil => simp [lookupField] at h
  | cons kw rest ih =>
    obtain ⟨k, w⟩ := kw
    simp only [lookupField] at h
    by_cases h2 : name = k
    · simp [h2]
    · simp only [if_neg h2] at h
      simp [ih h]

theorem allStrLt_mem {a b : String} {l : List String}
    (h : allStrLt a l = true) (hb : b ∈ l) : strLt a b = true := by
  induction l with
  | nil => cases hb
  | cons c rest ih =>
    simp only [allStrLt, Bool.and_eq_true] at h
    rcases List.mem_cons.mp hb with h1 | h1
    · exact h1 ▸ h.1
    · exact ih h.2 h1

theorem allStrLt_of_forall {a : String} {l : List String}
    (h : ∀ b ∈ l, strLt a b = true) : allStrLt a l = true := by
  induction l with
  | nil => rfl
  | cons c rest ih =>
    simp only [allStrLt, Bool.and_eq_true]
    exact ⟨h c (by simp), ih fun b hb => h b (List.mem_cons_of_mem _ hb)⟩

theorem btreeInsert_of_lookupField_eq
    {fields : List (String × StructHierarchy)} {name : String} {v : StructHierarchy}
    (hsorted : keysAscending (fields.map Prod.fst) = true)
    (h : lookupField fields name = some v) : btreeInsert fields name v = fields := by
  induction fields with
  | nil => simp [lookupField] at h
  | cons kw rest ih =>
    obtain ⟨k, w⟩ := kw
    simp only [List.map_cons, keysAscending, Bool.and_eq_true] at hsorted
    simp only [lookupField] at h
    split at h
    · rename_i h2
      injection h with hwv
      subst hwv
      subst h2
      simp [btreeInsert, strLt_irrefl]
    · rename_i h2
      have hmem := lookupField_mem_keys h
      have hkname : strLt k name = true := allStrLt_mem hsorted.1 hmem
      have hnk : strLt name k = false := strLt_not_both hkname
      simp [btreeInsert, hnk, h2, ih hsorted.2 h]

theorem allStrLt_btreeInsert {k name : String} {v : StructHierarchy}
    {rest : List (String × StructHierarchy)}
    (hall : allStrLt k (rest.map Prod.fst) = true) (hkn : strLt k name = true) :
    allStrLt k ((btreeInsert rest name v).map Prod.fst) = true := by
  induction rest with
  | nil => simp [btreeInsert, allStrLt, hkn]
  | cons cw tail ih =>
    obtain ⟨c, w⟩ := cw
    simp only [List.map_cons, allStrLt, Bool.and_eq_true] at hall
    simp only [btreeInsert]
    cases h1 : strLt name c with
    | true => simp [allStrLt, hkn, hall.1, hall.2]
    | false =>
      by_cases h2 : name = c
      · simp [h2, allStrLt, hkn, hall.1, hall.2]
      · simp [h2, allStrLt, hall.1, ih hall.2]

theorem keysAscending_btreeInsert {fields : List (String × StructHierarchy)}
    {name : String} {v : StructHierarchy}
    (hsorted : keysAscending (fields.map Prod.fst) = true) :
    keysAscending ((btreeInsert fields name v).map Prod.fst) = true := by
  induction fields with
  | nil => simp [btreeInsert, keysAscending, allStrLt]
  | cons kw rest ih =>
    obtain ⟨k, w⟩ := kw
    simp only [List.map_cons, keysAscending, Bool.and_eq_true] at hsorted
    simp only [btreeInsert]
    cases h1 : strLt name k with
    | true =>
      have hallname : allStrLt name (k :: rest.map Prod.fst) = true := by
        apply allStrLt_of_forall
        intro b hb
        rcases List.mem_cons.mp hb with hbk | hbr
        · exact hbk ▸ h1
        · exact strLt_trans h1 (allStrLt_mem hsorted.1 hbr)
      simp only [List.map_cons, keysAscending, Bool.and_eq_true]
      exact ⟨hallname, hsorted.1, hsorted.2⟩
    | false =>
      by_cases h2 : name = k
      · subst h2
        simp [keysAscending, hsorted.1, hsorted.2]
      · have hkn : strLt k name = true := strLt_asymm_of_ne h1 h2
        simp only [h2, if_false, Bool.false_eq_true, List.map_cons, keysAscending,
          Bool.and_eq_true]
        exact ⟨allStrLt_btreeInsert hsorted.1 hkn, ih hsorted.2⟩

/-! ### Sortedness and leaf-content lemmas -/

theorem sortedFieldsList_lookup {fields : List (String × StructHierarchy)}
    {name : String} {v : StructHierarchy}
    (hs : sortedFieldsList fields = true) (h : lookupField fields name = some v) :
    sortedHierarchy v = true := by
  induction fields with
  | nil => simp [lookupField] at h
  | cons kw rest ih =>
    obtain ⟨k, w⟩ := kw
    simp only [sortedFieldsList, Bool.and_eq_true] at hs
    simp only [lookupField] at h
    split at h
    · injection h with hwv
      exact hwv ▸ hs.1
    · exact ih hs.2 h

theorem sortedFieldsList_btreeInsert {fields : List (String × StructHierarchy)}
    {name : String} {v : StructHierarchy}
    (hs : sortedFieldsList fields = true) (hv : sortedHierarchy v = true) :
    sortedFieldsList (btreeInsert fields name v) = true := by
  induction fields with
  | nil => simp [btreeInsert, sortedFieldsList, hv]
  | cons kw rest ih =>
    obtain ⟨k, w⟩ := kw
    simp only [sortedFieldsList, Bool.and_eq_true] at hs
    simp only [btreeInsert]
    cases h1 : strLt name k with
    | true => simp [sortedFieldsList, hv, hs.1, hs.2]
    | false =>
      by_cases h2 : name = k
      · simp [h2, sortedFieldsList, hv, hs.2]
      · simp [h2, sortedFieldsList, hs.1, ih hs.2]

theorem leafHoldsFields_btreeInsert {d : DataType}
    {fields : List (String × StructHierarchy)} {name : String} {v : StructHierarchy}
    (h : leafHoldsFields d (btreeInsert fields name v) = true) :
    leafHoldsFields d fields = true ∨ leafHolds d v = true := by
  induction fields with
  | nil =>
    simp only [btreeInsert, leafHoldsFields, Bool.or_eq_true] at h
    rcases h with h | h
    · exact Or.inr h
    · simp [leafHoldsFields] at h
  | cons kw rest ih =>
    obtain ⟨k, w⟩ := kw
    simp only [btreeInsert] at h
    by_cases h1 : strLt name k = true
    · rw [if_pos h1] at h
      simp only [leafHoldsFields, Bool.or_eq_true] at h ⊢
      tauto
    · rw [if_neg h1] at h
      by_cases h2 : name = k
      · rw [if_pos h2] at h
        simp only [leafHoldsFields, Bool.or_eq_true] at h ⊢
        tauto
      · rw [if_neg h2] at h
        simp only [leafHoldsFields, Bool.or_eq_true] at h ⊢
        rcases h with h | h
        · tauto
        · rcases ih h with h3 | h3 <;> tauto

theorem leafHoldsFields_of_lookupField {d : DataType}
    {fields : List (String × StructHierarchy)} {name : String} {c : StructHierarchy}
    (hl : lookupField fields name = some c) (h : leafHolds d c = true) :
    leafHoldsFields d fields = true := by
  induction fields with
  | nil => simp [lookupField] at hl
  | cons kw rest ih =>
    obtain ⟨k, w⟩ := kw
    simp only [lookupField] at hl
    split at hl
    · injection hl with hwc
      subst hwc
      simp [leafHoldsFields, h]
    · simp [leafHoldsFields, ih hl]

/-! ### Insertion into a fresh empty struct never fails -/

theorem insert_defaultHierarchy_snd (rules : List InsertionRule) :
    (StructHierarchy.insert StructHierarchy.defaultHierarchy rules).2 = none := by
  induction rules with
  | nil => rfl
  | cons rule rest ih =>
    cases rule with
    | insertField name =>
      simpa [StructHierarchy.insert, StructHierarchy.defaultHierarchy, lookupField]
        using ih
    | beginOptional =>
      simp only [StructHierarchy.defaultHierarchy] at ih ⊢
      rcases hr : StructHierarchy.insert (.struct []) rest with ⟨child, err⟩
      rw [hr] at ih
      simp only at ih
      subst ih
      simp [StructHierarchy.insert, StructHierarchy.defaultHierarchy, hr]
    | beginStruct =>
      simpa [StructHierarchy.insert, StructHierarchy.defaultHierarchy] using ih
    | appendDataType t =>
      simp [StructHierarchy.insert, StructHierarchy.defaultHierarchy]

/-! ### Unfolding equations of `StructHierarchy.insert`, one per dispatch
case, each holding by definitional reduction -/

theorem insert_nil (s : StructHierarchy) :
    s.insert [] = (s, none) := by
  cases s <;> rfl

theorem insert_struct_insertField (fields : List (String × StructHierarchy))
    (name : String) (rest : List InsertionRule) :
    (StructHierarchy.struct fields).insert (.insertField name :: rest) =
    (.struct (btreeInsert fields name
        (((lookupField fields name).getD StructHierarchy.defaultHierarchy).insert rest).1),
      (((lookupField fields name).getD StructHierarchy.defaultHierarchy).insert rest).2) := rfl

theorem insert_emptyStruct_beginOptional (rest : List InsertionRule) :
    (StructHierarchy.struct []).insert (.beginOptional :: rest) =
    (match StructHierarchy.defaultHierarchy.insert rest with
     | (child, none) => (.optional child, none)
     | (_, some e) => (.struct [], some e)) := rfl

theorem insert_consStruct_beginOptional (kw : String × StructHierarchy)
    (fs : List (String × StructHierarchy)) (rest : List InsertionRule) :
    (StructHierarchy.struct (kw :: fs)).insert (.beginOptional :: rest) =
    (.struct (kw :: fs), some .beginOptionalNonEmptyStruct) := rfl

theorem insert_struct_beginStruct (fields : List (String × StructHierarchy))
    (rest : List InsertionRule) :
    (StructHierarchy.struct fields).insert (.beginStruct :: rest) =
    (StructHierarchy.struct fields).insert rest := rfl

theorem insert_emptyStruct_appendDataType (t : DataType) (rest : List InsertionRule) :
    (StructHierarchy.struct []).insert (.appendDataType t :: rest) =
    (.field t, none) := rfl

theorem insert_consStruct_appendDataType (kw : String × StructHierarchy)
    (fs : List (String × StructHierarchy)) (t : DataType) (rest : List InsertionRule) :
    (StructHierarchy.struct (kw :: fs)).insert (.appendDataType t :: rest) =
    (.struct (kw :: fs), some .appendDataTypeNonEmptyStruct) := rfl

theorem insert_optional_insertField (child : StructHierarchy) (name : String)
    (rest : List InsertionRule) :
    (StructHierarchy.optional child).insert (.insertField name :: rest) =
    (.optional child, some (.insertFieldToOptional name)) := rfl

theorem insert_optional_beginOptional (child : StructHierarchy)
    (rest : List InsertionRule) :
    (StructHierarchy.optional child).insert (.beginOptional :: rest) =
    (.optional (child.insert rest).1, (child.insert rest).2) := rfl

theorem insert_optional_beginStruct (child : StructHierarchy)
    (rest : List InsertionRule) :
    (StructHierarchy.optional child).insert (.beginStruct :: rest) =
    (.optional child, some .beginStructOnOptional) := rfl

theorem insert_optional_appendDataType (child : StructHierarchy) (t : DataType)
    (rest : List InsertionRule) :
    (StructHierarchy.optional child).insert (.appendDataType t :: rest) =
    (.optional child, some .appendDataTypeOnOptional) := rfl

theorem insert_field_insertField (t : DataType) (name : String)
    (rest : List InsertionRule) :
    (StructHierarchy.field t).insert (.insertField name :: rest) =
    (.field t, none) := rfl

theorem insert_field_beginOptional (t : DataType) (rest : List InsertionRule) :
    (StructHierarchy.field t).insert (.beginOptional :: rest) = (.field t, none) := rfl

theorem insert_field_beginStruct (t : DataType) (rest : List InsertionRule) :
    (StructHierarchy.field t).insert (.beginStruct :: rest) = (.field t, none) := rfl

theorem insert_field_appendDataType (t u : DataType) (rest : List InsertionRule) :
    (StructHierarchy.field t).insert (.appendDataType u :: rest) =
    (if t = u then (.field t, none) else (.field t, some (.unmatchingDataTypes t u))) := rfl

/-- C7: `insert` is atomic. For every schema node satisfying the
`BTreeMap` sortedness invariant and every instruction sequence, if
`insert` returns an error then the post-call tree (including the entire
subtree) is exactly the pre-call tree: no partially applied mutation,
such as a newly created empty field, remains. (The
`entry(..).or_default()` call can materialise a fresh entry before
recursing, but insertion into a fresh empty struct never fails, so no
error can surface below such a creation.) -/
theorem insert_error_atomic :
    ∀ (rules : List InsertionRule) (s : StructHierarchy) (e : InsertError),
    sortedHierarchy s = true → (StructHierarchy.insert s rules).2 = some e →
    (StructHierarchy.insert s rules).1 = s := by
  intro rules
  induction rules with
  | nil =>
    intro s e _ herr
    rw [insert_nil] at herr
    simp at herr
  | cons rule rest ih =>
    intro s e hs herr
    cases s with
    | struct fields =>
      simp only [sortedHierarchy, Bool.and_eq_true] at hs
      cases rule with
      | insertField name =>
        simp only [insert_struct_insertField] at herr ⊢
        cases hl : lookupField fields name with
        | none =>
          rw [hl] at herr
          simp only [Option.getD] at herr
          rw [insert_defaultHierarchy_snd rest] at herr
          simp at herr
        | some c =>
          rw [hl] at herr
          simp only [Option.getD] at herr ⊢
          have hc : sortedHierarchy c = true := sortedFieldsList_lookup hs.2 hl
          rw [ih c e hc herr, btreeInsert_of_lookupField_eq hs.1 hl]
      | beginOptional =>
        cases fields with
        | nil =>
          simp only [insert_emptyStruct_beginOptional] at herr ⊢
          rcases hrd : StructHierarchy.insert StructHierarchy.defaultHierarchy rest
            with ⟨child, err⟩
          have hnone := insert_defaultHierarchy_snd rest
          rw [hrd] at hnone
          simp only at hnone
          subst hnone
          rw [hrd] at herr
          simp at herr
        | cons kw fs => simp only [insert_consStruct_beginOptional]
      | beginStruct =>
        simp only [insert_struct_beginStruct] at herr ⊢
        exact ih _ e (by simp [sortedHierarchy, hs.1, hs.2]) herr
      | appendDataType t =>
        cases fields with
        | nil =>
          simp only [insert_emptyStruct_appendDataType] at herr
          simp at herr
        | cons kw fs => simp only [insert_consStruct_appendDataType]
    | optional child =>
      simp only [sortedHierarchy] at hs
      cases rule with
      | insertField name => simp only [insert_optional_insertField]
      | beginOptional =>
        simp only [insert_optional_beginOptional] at herr ⊢
        rw [ih child e hs herr]
      | beginStruct => simp only [insert_optional_beginStruct]
      | appendDataType t => simp only [insert_optional_appendDataType]
    | field t =>
      cases rule with
      | insertField name =>
        simp only [insert_field_insertField] at herr
        simp at herr
      | beginOptional =>
        simp only [insert_field_beginOptional] at herr
        simp at herr
      | beginStruct =>
        simp only [insert_field_beginStruct] at herr
        simp at herr
      | appendDataType u =>
        simp only [insert_field_appendDataType] at herr ⊢
        split <;> rfl

theorem insertSorted_aux :
    ∀ (rules : List InsertionRule) (s : StructHierarchy),
    sortedHierarchy s = true → sortedHierarchy (StructHierarchy.insert s rules).1 = true := by
  intro rules
  induction rules with
  | nil =>
    intro s hs
    rw [insert_nil]
    exact hs
  | cons rule rest ih =>
    intro s hs
    cases s with
    | struct fields =>
      simp only [sortedHierarchy, Bool.and_eq_true] at hs
      cases rule with
      | insertField name =>
        simp only [insert_struct_insertField]
        have hchild : sortedHierarchy
            ((lookupField fields name).getD StructHierarchy.defaultHierarchy) = true := by
          cases hl : lookupField fields name with
          | none => rfl
          | some c => simpa [Option.getD] using sortedFieldsList_lookup hs.2 hl
        have hres := ih _ hchild
        simp only [sortedHierarchy, Bool.and_eq_true]
        exact ⟨keysAscending_btreeInsert hs.1, sortedFieldsList_btreeInsert hs.2 hres⟩
      | beginOptional =>
        cases fields with
        | nil =>
          simp only [insert_emptyStruct_beginOptional]
          rcases hrd : StructHierarchy.insert StructHierarchy.defaultHierarchy rest
            with ⟨child, err⟩
          have hchild := ih StructHierarchy.defaultHierarchy (by rfl)
          rw [hrd] at hchild
          cases err with
          | none => simpa [sortedHierarchy] using hchild
          | some e => rfl
        | cons kw fs =>
          simp only [insert_consStruct_beginOptional]
          simp only [sortedHierarchy, Bool.and_eq_true]
          exact ⟨by simpa using hs.1, hs.2⟩
      | beginStruct =>
        simp only [insert_struct_beginStruct]
        exact ih _ (by simp [sortedHierarchy, hs.1, hs.2])
      | appendDataType t =>
        cases fields with
        | nil =>
          simp only [insert_emptyStruct_appendDataType]
          rfl
        | cons kw fs =>
          simp only [insert_consStruct_appendDataType]
          simp only [sortedHierarchy, Bool.and_eq_true]
          exact ⟨by simpa using hs.1, hs.2⟩
    | optional child =>
      simp only [sortedHierarchy] at hs
      cases rule with
      | insertField name =>
        simp only [insert_optional_insertField]
        simpa [sortedHierarchy] using hs
      | beginOptional =>
        simp only [insert_optional_beginOptional]
        simpa [sortedHierarchy] using ih child hs
      | beginStruct =>
        simp only [insert_optional_beginStruct]
        simpa [sortedHierarchy] using hs
      | appendDataType t =>
        simp only [insert_optional_appendDataType]
        simpa [sortedHierarchy] using hs
    | field t =>
      cases rule with
      | insertField name =>
        simp only [insert_field_insertField]
        rfl
      | beginOptional =>
        simp only [insert_field_beginOptional]
        rfl
      | beginStruct =>
        simp only [insert_field_beginStruct]
        rfl
      | appendDataType u =>
        simp only [insert_field_appendDataType]
        split <;> rfl

/-- C9: the lexicographic field order of every `Struct` node is an
invariant of merging. The empty root satisfies it, and `insert` preserves
it for every instruction sequence (`sortedHierarchy` states that every
struct node's field keys are strictly ascending in the byte-lexicographic
order that `BTreeMap<String, _>` iterates in), so after every sequence of
merges every struct node's fields are sorted by name regardless of
insertion order. -/
theorem insert_preserves_sorted :
    sortedHierarchy StructHierarchy.defaultHierarchy = true ∧
    ∀ (rules : List InsertionRule) (s : StructHierarchy),
      sortedHierarchy s = true →
      sortedHierarchy (StructHierarchy.insert s rules).1 = true :=
  ⟨rfl, insertSorted_aux⟩

/-! ### Compiled-rule shape lemmas -/

theorem ptir_cons (segment : PathSegment) (ps : List PathSegment) (T : DataType) :
    path_to_insertion_rules (segment :: ps) T =
    (if segment.is_optional then
        [.beginStruct, .insertField segment.name, .beginOptional]
      else [.beginStruct, .insertField segment.name]) ++ path_to_insertion_rules ps T := by
  cases ho : segment.is_optional <;> simp [path_to_insertion_rules, ho]

theorem appendedTypes_ptir (p : List PathSegment) (T : DataType) :
    appendedTypes (path_to_insertion_rules p T) = [T] := by
  induction p with
  | nil => rfl
  | cons seg ps ih =>
    rw [ptir_cons]
    simp only [appendedTypes, List.filterMap_append] at ih ⊢
    cases ho : seg.is_optional
    · simp [List.filterMap_cons, ih]
    · simp [List.filterMap_cons, ih]

theorem insertLeaf_aux :
    ∀ (rules : List InsertionRule) (s : StructHierarchy) (d : DataType),
    leafHolds d (StructHierarchy.insert s rules).1 = true →
    leafHolds d s = true ∨ d ∈ appendedTypes rules := by
  intro rules
  induction rules with
  | nil =>
    intro s d h
    rw [insert_nil] at h
    exact Or.inl h
  | cons rule rest ih =>
    intro s d h
    cases s with
    | struct fields =>
      cases rule with
      | insertField name =>
        simp only [insert_struct_insertField] at h
        simp only [leafHolds] at h ⊢
        rcases leafHoldsFields_btreeInsert h with h1 | h1
        · exact Or.inl h1
        · rcases ih _ _ h1 with h2 | h2
          · cases hl : lookupField fields name with
            | none =>
              rw [hl] at h2
              simp [Option.getD, StructHierarchy.defaultHierarchy, leafHolds,
                leafHoldsFields] at h2
            | some c =>
              rw [hl] at h2
              simp only [Option.getD] at h2
              exact Or.inl (leafHoldsFields_of_lookupField hl h2)
          · exact Or.inr (by simpa [appendedTypes, List.filterMap_cons] using h2)
      | beginOptional =>
        cases fields with
        | nil =>
          simp only [insert_emptyStruct_beginOptional] at h
          rcases hrd : StructHierarchy.insert StructHierarchy.defaultHierarchy rest
            with ⟨child, err⟩
          rw [hrd] at h
          cases err with
          | none =>
            simp only [leafHolds] at h
            have h1 := ih StructHierarchy.defaultHierarchy d (by rw [hrd]; exact h)
            rcases h1 with h2 | h2
            · simp [StructHierarchy.defaultHierarchy, leafHolds, leafHoldsFields] at h2
            · exact Or.inr (by simpa [appendedTypes, List.filterMap_cons] using h2)
          | some e => simp [leafHolds, leafHoldsFields] at h
        | cons kw fs =>
          simp only [insert_consStruct_beginOptional] at h
          exact Or.inl h
      | beginStruct =>
        simp only [insert_struct_beginStruct] at h
        rcases ih _ _ h with h1 | h1
        · exact Or.inl h1
        · exact Or.inr (by simpa [appendedTypes, List.filterMap_cons] using h1)
      | appendDataType t =>
        cases fields with
        | nil =>
          simp only [insert_emptyStruct_appendDataType] at h
          simp only [leafHolds] at h
          have ht : t = d := of_decide_eq_true h
          subst ht
          exact Or.inr (by simp [appendedTypes, List.filterMap_cons])
        | cons kw fs =>
          simp only [insert_consStruct_appendDataType] at h
          exact Or.inl h
    | optional child =>
      cases rule with
      | insertField name =>
        simp only [insert_optional_insertField] at h
        exact Or.inl h
      | beginOptional =>
        simp only [insert_optional_beginOptional] at h
        simp only [leafHolds] at h ⊢
        rcases ih _ _ h with h1 | h1
        · exact Or.inl h1
        · exact Or.inr (by simpa [appendedTypes, List.filterMap_cons] using h1)
      | beginStruct =>
        simp only [insert_optional_beginStruct] at h
        exact Or.inl h
      | appendDataType t =>
        simp only [insert_optional_appendDataType] at h
        exact Or.inl h
    | field t =>
      cases rule with
      | insertField name =>
        simp only [insert_field_insertField] at h
        exact Or.inl h
      | beginOptional =>
        simp only [insert_field_beginOptional] at h
        exact Or.inl h
      | beginStruct =>
        simp only [insert_field_beginStruct] at h
        exact Or.inl h
      | appendDataType u =>
        simp only [insert_field_appendDataType] at h
        have hfst : (if t = u then ((StructHierarchy.field t), (none : Option InsertError))
            else (.field t, some (.unmatchingDataTypes t u))).1 = StructHierarchy.field t := by
          split <;> rfl
        rw [hfst] at h
        exact Or.inl h

theorem data_type_wrapped_ne (t : DataType) : data_type_wrapped_in_option t ≠ t := by
  intro h
  have hsz := congrArg sizeOf h
  simp [data_type_wrapped_in_option] at hsz
  omega

/-- C10: every leaf that an additional-outputs merge can create stores
the declared type wrapped in `Option`. A data type found at a leaf after
`additionalOutputInsert` was either already present or is exactly
`Option<t>`, and `Option<t>` is never the bare declared type `t`. -/
theorem additional_output_leaf_wrapped :
    (∀ (s : StructHierarchy) (path : List PathSegment) (t d : DataType),
      leafHolds d (additionalOutputInsert s path t).1 = true →
      leafHolds d s = true ∨ d = data_type_wrapped_in_option t)
    ∧ ∀ t : DataType, data_type_wrapped_in_option t ≠ t := by
  constructor
  · intro s path t d h
    simp only [additionalOutputInsert] at h
    rcases insertLeaf_aux _ _ _ h with h1 | h1
    · exact Or.inl h1
    · rw [appendedTypes_ptir] at h1
      exact Or.inr (by simpa using h1)
  · exact data_type_wrapped_ne

theorem insertFuel_of_lt :
    ∀ (rules : List InsertionRule) (fuel : Nat) (s : StructHierarchy),
    rules.length < fuel →
    insertFuel fuel s rules = some (StructHierarchy.insert s rules) := by
  intro rules
  induction rules with
  | nil =>
    intro fuel s hlen
    cases fuel with
    | zero => omega
    | succ k => cases s <;> simp [insertFuel, insert_nil]
  | cons rule rest ih =>
    intro fuel s hlen
    cases fuel with
    | zero => omega
    | succ k =>
      have hk : rest.length < k := by
        simp only [List.length_cons] at hlen
        omega
      cases s with
      | struct fields =>
        cases rule with
        | insertField name =>
          simp only [insertFuel, insert_struct_insertField]
          rw [ih k _ hk]
        | beginOptional =>
          cases fields with
          | nil =>
            rcases hrd : StructHierarchy.insert StructHierarchy.defaultHierarchy rest
              with ⟨child, err⟩
            have hkk := ih k StructHierarchy.defaultHierarchy hk
            rw [hrd] at hkk
            cases err with
            | none => simp [insertFuel, insert_emptyStruct_beginOptional, hkk, hrd]
            | some e => simp [insertFuel, insert_emptyStruct_beginOptional, hkk, hrd]
          | cons kw fs => simp [insertFuel, insert_consStruct_beginOptional]
        | beginStruct =>
          simp only [insertFuel, insert_struct_beginStruct]
          exact ih k _ hk
        | appendDataType t =>
          cases fields with
          | nil => simp [insertFuel, insert_emptyStruct_appendDataType]
          | cons kw fs => simp [insertFuel, insert_consStruct_appendDataType]
      | optional child =>
        cases rule with
        | insertField name => simp [insertFuel, insert_optional_insertField]
        | beginOptional =>
          rcases hrd : StructHierarchy.insert child rest with ⟨c2, err⟩
          have hkk := ih k child hk
          rw [hrd] at hkk
          simp [insertFuel, insert_optional_beginOptional, hkk, hrd]
        | beginStruct => simp [insertFuel, insert_optional_beginStruct]
        | appendDataType t => simp [insertFuel, insert_optional_appendDataType]
      | field t =>
        cases rule with
        | insertField name => simp [insertFuel, insert_field_insertField]
        | beginOptional => simp [insertFuel, insert_field_beginOptional]
        | beginStruct => simp [insertFuel, insert_field_beginStruct]
        | appendDataType u =>
          by_cases htu : t = u
          · simp [insertFuel, insert_field_appendDataType, htu]
          · simp [insertFuel, insert_field_appendDataType, htu]

/-- C8: `insert` terminates on every schema node and every finite
instruction sequence, consuming exactly one instruction per recursive
step: the fuel-indexed variant with `length + 1` units of fuel never runs
out and computes exactly `insert`'s result. -/
theorem insert_terminates_with_length_fuel :
    ∀ (s : StructHierarchy) (rules : List InsertionRule),
    insertFuel (rules.length + 1) s rules = some (StructHierarchy.insert s rules) :=
  fun s rules => insertFuel_of_lt rules (rules.length + 1) s (by omega)

theorem ptir_nil (T : DataType) :
    path_to_insertion_rules [] T = [.appendDataType T] := rfl

/-- C5: merging a compiled `(path, type)` instruction sequence is
idempotent. If merging `path_to_insertion_rules p T` into a schema node
succeeds, merging the same sequence into the result succeeds again and
leaves the tree unchanged. -/
theorem insert_compiled_rules_idempotent :
    ∀ (p : List PathSegment) (T : DataType) (s : StructHierarchy),
    (StructHierarchy.insert s (path_to_insertion_rules p T)).2 = none →
    StructHierarchy.insert (StructHierarchy.insert s (path_to_insertion_rules p T)).1
      (path_to_insertion_rules p T) =
    ((StructHierarchy.insert s (path_to_insertion_rules p T)).1, none) := by
  intro p
  induction p with
  | nil =>
    intro T s hsucc
    rw [ptir_nil] at hsucc ⊢
    cases s with
    | struct fields =>
      cases fields with
      | nil => simp [insert_emptyStruct_appendDataType, insert_field_appendDataType]
      | cons kw fs =>
        rw [insert_consStruct_appendDataType] at hsucc
        simp at hsucc
    | optional child =>
      rw [insert_optional_appendDataType] at hsucc
      simp at hsucc
    | field t =>
      by_cases htT : t = T
      · subst htT
        simp [insert_field_appendDataType]
      · rw [insert_field_appendDataType] at hsucc
        simp [htT] at hsucc
  | cons seg ps ih =>
    intro T s hsucc
    rw [ptir_cons] at hsucc ⊢
    cases ho : seg.is_optional with
    | false =>
      simp only [ho, Bool.false_eq_true, if_false, List.cons_append, List.nil_append]
        at hsucc ⊢
      cases s with
      | struct fields =>
        simp only [insert_struct_beginStruct, insert_struct_insertField] at hsucc ⊢
        have hR := ih T _ hsucc
        rw [lookupField_btreeInsert_self]
        simp only [Option.getD_some]
        simp [hR, btreeInsert_btreeInsert_self]
      | optional child =>
        rw [insert_optional_beginStruct] at hsucc
        simp at hsucc
      | field t =>
        simp [insert_field_beginStruct]
    | true =>
      simp only [ho, if_true, List.cons_append, List.nil_append] at hsucc ⊢
      have hB : ∀ (c : StructHierarchy),
          (StructHierarchy.insert c
            (.beginOptional :: path_to_insertion_rules ps T)).2 = none →
          StructHierarchy.insert
            (StructHierarchy.insert c
              (.beginOptional :: path_to_insertion_rules ps T)).1
            (.beginOptional :: path_to_insertion_rules ps T) =
          ((StructHierarchy.insert c
              (.beginOptional :: path_to_insertion_rules ps T)).1, none) := by
        intro c hc
        cases c with
        | struct fields =>
          cases fields with
          | nil =>
            rcases hrd : StructHierarchy.insert StructHierarchy.defaultHierarchy
                (path_to_insertion_rules ps T) with ⟨child, err⟩
            have hnone := insert_defaultHierarchy_snd (path_to_insertion_rules ps T)
            rw [hrd] at hnone
            simp only at hnone
            subst hnone
            have h1 : StructHierarchy.insert (.struct [])
                (.beginOptional :: path_to_insertion_rules ps T) =
                (.optional child, none) := by
              rw [insert_emptyStruct_beginOptional, hrd]
            rw [h1]
            simp only
            rw [insert_optional_beginOptional]
            have hidem := ih T StructHierarchy.defaultHierarchy (by rw [hrd])
            rw [hrd] at hidem
            simp only at hidem
            rw [hidem]
          | cons kw fs =>
            rw [insert_consStruct_beginOptional] at hc
            simp at hc
        | optional child0 =>
          rw [insert_optional_beginOptional] at hc
          simp only at hc
          have hidem := ih T child0 hc
          simp only [insert_optional_beginOptional]
          rw [hidem]
        | field t0 =>
          simp [insert_field_beginOptional]
      cases s with
      | struct fields =>
        simp only [insert_struct_beginStruct, insert_struct_insertField] at hsucc ⊢
        have hR := hB _ hsucc
        rw [lookupField_btreeInsert_self]
        simp only [Option.getD_some]
        simp [hR, btreeInsert_btreeInsert_self]
      | optional child =>
        rw [insert_optional_beginStruct] at hsucc
        simp at hsucc
      | field t =>
        simp [insert_field_beginStruct]

/-- C3: the instruction compiler emits, for each segment in order,
`BeginStruct` then `InsertField(name)`, immediately followed by
`BeginOptional` when the segment is optional; after all segments there is
exactly one `AppendDataType(T)`, which is the final instruction; the
empty path compiles to exactly `[AppendDataType(T)]`. -/
theorem path_to_insertion_rules_spec :
    ∀ (T : DataType),
    (path_to_insertion_rules [] T = [.appendDataType T]) ∧
    (∀ (segment : PathSegment) (rest : List PathSegment),
      path_to_insertion_rules (segment :: rest) T =
      (if segment.is_optional then
          [.beginStruct, .insertField segment.name, .beginOptional]
        else [.beginStruct, .insertField segment.name])
        ++ path_to_insertion_rules rest T) ∧
    (∀ (p : List PathSegment), appendedTypes (path_to_insertion_rules p T) = [T]) ∧
    (∀ (p : List PathSegment),
      (path_to_insertion_rules p T).getLast? = some (.appendDataType T)) := by
  intro T
  refine ⟨ptir_nil T, fun segment rest => ptir_cons segment rest T,
    fun p => appendedTypes_ptir p T, fun p => ?_⟩
  rw [path_to_insertion_rules]
  exact List.getLast?_concat _

/-- C4: the `Leaf` row of the merge dispatch. With the current node a
leaf of type `t`, the instructions `InsertField`, `BeginOptional` and
`BeginStruct` succeed as no-ops that discard the remaining instructions
and leave the tree unchanged, while `AppendDataType u` succeeds exactly
when `u` equals `t` and otherwise errors with the type conflict carrying
both types. -/
theorem insert_leaf_row_spec :
    ∀ (t u : DataType) (name : String) (rest : List InsertionRule),
    (StructHierarchy.insert (.field t) (.insertField name :: rest) = (.field t, none)) ∧
    (StructHierarchy.insert (.field t) (.beginOptional :: rest) = (.field t, none)) ∧
    (StructHierarchy.insert (.field t) (.beginStruct :: rest) = (.field t, none)) ∧
    (StructHierarchy.insert (.field t) (.appendDataType u :: rest) =
      if u = t then (.field t, none)
      else (.field t, some (.unmatchingDataTypes t u))) := by
  intro t u name rest
  refine ⟨insert_field_insertField t name rest, insert_field_beginOptional t rest,
    insert_field_beginStruct t rest, ?_⟩
  rw [insert_field_appendDataType]
  by_cases h : t = u
  · simp [h]
  · simp [h, Ne.symm h]

/-- Spec-side classification of one dispatch step: the (node, first
instruction) pairs that the error taxonomy calls shape conflicts. Written
from the specification's words, to be compared with `insert`. -/
def shapeConflictStep (s : StructHierarchy) (rule : InsertionRule) : Bool :=
  match s, rule with
  | .struct fields, .beginOptional => !fields.isEmpty
  | .struct fields, .appendDataType _ => !fields.isEmpty
  | .optional _, .insertField _ => true
  | .optional _, .beginStruct => true
  | .optional _, .appendDataType _ => true
  | _, _ => false

/-- Spec-side classification of one dispatch step: the single pair that
the error taxonomy calls a type conflict. -/
def typeConflictStep (s : StructHierarchy) (rule : InsertionRule) : Bool :=
  match s, rule with
  | .field t, .appendDataType u => !(decide (t = u))
  | _, _ => false

/-- C1 (amended): a single dispatch step of `insert` returns a
shape-conflict error exactly when the pair (node, instruction) is one of:
`BeginOptional` on a non-empty `Struct`, `AppendDataType` on a non-empty
`Struct`, `InsertField` on an `Optional`, `BeginStruct` on an `Optional`,
or `AppendDataType` on an `Optional`; every other step succeeds, except
`AppendDataType` on a `Leaf` of a different type, which returns the
type-conflict (non-shape) error. -/
theorem insert_single_step_conflict_classification :
    ∀ (s : StructHierarchy) (rule : InsertionRule),
    ((StructHierarchy.insert s [rule]).2.any InsertError.isShapeConflict =
      shapeConflictStep s rule) ∧
    (shapeConflictStep s rule = false → typeConflictStep s rule = false →
      (StructHierarchy.insert s [rule]).2 = none) ∧
    (typeConflictStep s rule = true →
      (StructHierarchy.insert s [rule]).2.any InsertError.isShapeConflict = false ∧
      (StructHierarchy.insert s [rule]).2 ≠ none) := by
  intro s rule
  cases s with
  | struct fields =>
    cases fields with
    | nil =>
      cases rule <;>
        simp [insert_struct_insertField, insert_emptyStruct_beginOptional,
          insert_struct_beginStruct, insert_emptyStruct_appendDataType,
          insert_nil, shapeConflictStep, typeConflictStep, lookupField,
          StructHierarchy.defaultHierarchy]
    | cons kw fs =>
      cases rule <;>
        simp [insert_struct_insertField, insert_consStruct_beginOptional,
          insert_struct_beginStruct, insert_consStruct_appendDataType,
          insert_nil, shapeConflictStep, typeConflictStep,
          InsertError.isShapeConflict]
  | optional child =>
    cases rule <;>
      simp [insert_optional_insertField, insert_optional_beginOptional,
        insert_optional_beginStruct, insert_optional_appendDataType,
        insert_nil, shapeConflictStep, typeConflictStep, InsertError.isShapeConflict]
  | field t =>
    cases rule with
    | insertField name =>
      simp [insert_field_insertField, shapeConflictStep, typeConflictStep]
    | beginOptional =>
      simp [insert_field_beginOptional, shapeConflictStep, typeConflictStep]
    | beginStruct =>
      simp [insert_field_beginStruct, shapeConflictStep, typeConflictStep]
    | appendDataType u =>
      by_cases htu : t = u
      · simp [insert_field_appendDataType, htu, shapeConflictStep, typeConflictStep]
      · simp [insert_field_appendDataType, htu, shapeConflictStep, typeConflictStep,
          InsertError.isShapeConflict]

/-- C1 counterexample: `AppendDataType` on an `Optional` — a step outside
the claim's four listed cases — does not succeed; it returns a
shape-conflict error. -/
theorem insert_appendDataType_on_optional_errors :
    StructHierarchy.insert (.optional StructHierarchy.defaultHierarchy)
      [.appendDataType (.verbatim "T")] =
    (.optional StructHierarchy.defaultHierarchy, some .appendDataTypeOnOptional) ∧
    InsertError.isShapeConflict .appendDataTypeOnOptional = true :=
  ⟨rfl, rfl⟩

theorem insert_single_step_conflict_classification_witness :
    (StructHierarchy.insert (.field (.verbatim "A"))
      [.appendDataType (.verbatim "B")]).2.any InsertError.isShapeConflict = false ∧
    (StructHierarchy.insert (.field (.verbatim "A"))
      [.appendDataType (.verbatim "B")]).2 ≠ none :=
  (insert_single_step_conflict_classification (.field (.verbatim "A"))
    (.appendDataType (.verbatim "B"))).2.2 (by rfl)

/-- C2 (amended): in the flat main-outputs category, inserting a leaf
under a name that already holds a leaf of the same type succeeds and
leaves the tree unchanged; inserting with a different type also succeeds
— `BTreeMap::insert` silently replaces the existing leaf with the new
type (no error is returned). -/
theorem mainOutputs_duplicate_leaf :
    ∀ (fields : List (String × StructHierarchy)) (name : String) (t u : DataType),
    keysAscending (fields.map Prod.fst) = true →
    lookupField fields name = some (.field t) →
    (mainOutputsInsert (.struct fields) name t = .ok (.struct fields)) ∧
    (∃ fields', mainOutputsInsert (.struct fields) name u = .ok (.struct fields') ∧
      lookupField fields' name = some (.field u)) := by
  intro fields name t u hsorted hlook
  constructor
  · simp [mainOutputsInsert, btreeInsert_of_lookupField_eq hsorted hlook]
  · exact ⟨btreeInsert fields name (.field u), by simp [mainOutputsInsert],
      lookupField_btreeInsert_self fields name (.field u)⟩

/-- C2 counterexample: inserting a main-outputs leaf under an existing
name with a *different* type does not return an error; the code
overwrites the leaf and succeeds. -/
theorem mainOutputs_type_mismatch_no_error :
    mainOutputsInsert (.struct [("x", .field (.verbatim "A"))]) "x" (.verbatim "B") =
    .ok (.struct [("x", .field (.verbatim "B"))]) := rfl

theorem mainOutputs_duplicate_leaf_witness :
    (mainOutputsInsert (.struct [("x", .field (.verbatim "A"))]) "x" (.verbatim "A") =
      .ok (.struct [("x", .field (.verbatim "A"))])) ∧
    (∃ fields', mainOutputsInsert (.struct [("x", .field (.verbatim "A"))]) "x"
        (.verbatim "B") = .ok (.struct fields') ∧
      lookupField fields' "x" = some (.field (.verbatim "B"))) :=
  mainOutputs_duplicate_leaf [("x", .field (.verbatim "A"))] "x"
    (.verbatim "A") (.verbatim "B") (by rfl) (by rfl)

theorem unwrap_ok_iff (t inner : DataType) :
    unwrap_option_data_type t = .ok inner ↔
    ∃ q lc : Bool,
      t = .typePath q lc [⟨"Option", .angleBracketed [.typeArg inner]⟩] := by
  constructor
  · intro h
    cases t with
    | verbatim s => simp [unwrap_option_data_type] at h
    | typePath q lc segs =>
      cases segs with
      | nil => simp [unwrap_option_data_type] at h
      | cons seg rest =>
        cases rest with
        | cons seg2 rest2 => simp [unwrap_option_data_type] at h
        | nil =>
          obtain ⟨ident, args⟩ := seg
          by_cases hid : ident = "Option"
          · subst hid
            cases args with
            | noArgs => simp [unwrap_option_data_type] at h
            | otherArgs s => simp [unwrap_option_data_type] at h
            | angleBracketed gargs =>
              cases gargs with
              | nil => simp [unwrap_option_data_type] at h
              | cons g grest =>
                cases grest with
                | cons g2 grest2 => simp [unwrap_option_data_type] at h
                | nil =>
                  cases g with
                  | otherArg s => simp [unwrap_option_data_type] at h
                  | typeArg t2 =>
                    simp [unwrap_option_data_type] at h
                    subst h
                    exact ⟨q, lc, rfl⟩
          · simp [unwrap_option_data_type, hid] at h
  · rintro ⟨q, lc, rfl⟩
    rfl

/-- C6: the parameter branch of the registry. When some segment of the
expanded path is optional, the declared leaf type must be syntactically
`Option<inner>` (a one-segment type path named `Option` with exactly one
angle-bracketed type argument): any other shape makes the merge fail,
and on the `Option` shape the registry compiles and merges with the
unwrapped `inner`. When no segment is optional the leaf type is used as
supplied. -/
theorem parameter_optional_unwrap_spec :
    ∀ (configuration : StructHierarchy) (path : List PathSegment) (t : DataType),
    ((path.any fun segment => segment.is_optional) = true →
      ((∀ (q lc : Bool) (inner : DataType),
          t ≠ .typePath q lc [⟨"Option", .angleBracketed [.typeArg inner]⟩]) →
        ∃ e, parameterInsert configuration path t = .error e) ∧
      (∀ (q lc : Bool) (inner : DataType),
        t = .typePath q lc [⟨"Option", .angleBracketed [.typeArg inner]⟩] →
        parameterInsert configuration path t =
          match StructHierarchy.insert configuration
              (path_to_insertion_rules path inner) with
          | (configuration', none) => .ok configuration'
          | (_, some e) => .error e.message)) ∧
    ((path.any fun segment => segment.is_optional) = false →
      parameterInsert configuration path t =
        match StructHierarchy.insert configuration
            (path_to_insertion_rules path t) with
        | (configuration', none) => .ok configuration'
        | (_, some e) => .error e.message) := by
  intro configuration path t
  refine ⟨fun hopt => ⟨fun hshape => ?_, fun q lc inner hshape => ?_⟩, fun hopt => ?_⟩
  · cases hu : unwrap_option_data_type t with
    | ok inner =>
      obtain ⟨q, lc, ht⟩ := (unwrap_ok_iff t inner).mp hu
      exact absurd ht (hshape q lc inner)
    | error e =>
      exact ⟨e, by simp [parameterInsert, hopt, hu]⟩
  · have hu : unwrap_option_data_type t = .ok inner :=
      (unwrap_ok_iff t inner).mpr ⟨q, lc, hshape⟩
    simp [parameterInsert, hopt, hu]
  · simp [parameterInsert, hopt]

theorem parameter_optional_unwrap_spec_witness :
    parameterInsert StructHierarchy.defaultHierarchy [⟨"a", true, false⟩]
      (.typePath false false [⟨"Option", .angleBracketed [.typeArg (.verbatim "A")]⟩]) =
      match StructHierarchy.insert StructHierarchy.defaultHierarchy
          (path_to_insertion_rules [⟨"a", true, false⟩] (.verbatim "A")) with
      | (configuration', none) => .ok configuration'
      | (_, some e) => .error e.message :=
  ((parameter_optional_unwrap_spec StructHierarchy.defaultHierarchy
      [⟨"a", true, false⟩]
      (.typePath false false
        [⟨"Option", .angleBracketed [.typeArg (.verbatim "A")]⟩])).1
    (by rfl)).2 false false (.verbatim "A") rfl

theorem insert_compiled_rules_idempotent_witness :
    StructHierarchy.insert
      (StructHierarchy.insert StructHierarchy.defaultHierarchy
        (path_to_insertion_rules [⟨"a", false, false⟩] (.verbatim "A"))).1
      (path_to_insertion_rules [⟨"a", false, false⟩] (.verbatim "A")) =
    ((StructHierarchy.insert StructHierarchy.defaultHierarchy
        (path_to_insertion_rules [⟨"a", false, false⟩] (.verbatim "A"))).1, none) :=
  insert_compiled_rules_idempotent [⟨"a", false, false⟩] (.verbatim "A")
    StructHierarchy.defaultHierarchy (by rfl)

theorem insert_error_atomic_witness :
    (StructHierarchy.insert (.struct [("x", .field (.verbatim "A"))])
      [.appendDataType (.verbatim "B")]).1 =
    .struct [("x", .field (.verbatim "A"))] :=
  insert_error_atomic [.appendDataType (.verbatim "B")]
    (.struct [("x", .field (.verbatim "A"))]) .appendDataTypeNonEmptyStruct
    (by rfl) (by rfl)

theorem insert_preserves_sorted_witness :
    sortedHierarchy (StructHierarchy.insert StructHierarchy.defaultHierarchy
      [.insertField "b", .insertField "a"]).1 = true :=
  insert_preserves_sorted.2 [.insertField "b", .insertField "a"]
    StructHierarchy.defaultHierarchy (by rfl)

theorem additional_output_leaf_wrapped_witness :
    leafHolds (data_type_wrapped_in_option (.verbatim "A"))
        StructHierarchy.defaultHierarchy = true ∨
      data_type_wrapped_in_option (.verbatim "A") =
        data_type_wrapped_in_option (.verbatim "A") :=
  additional_output_leaf_wrapped.1 StructHierarchy.defaultHierarchy [] (.verbatim "A")
    (data_type_wrapped_in_option (.verbatim "A")) (by rfl)
